import Mathlib

/-!
Shallow embedding of the content-resolution and localization pipeline of a
static site generator (source files: src/content.rs, src/config.rs).

Paths and URLs are embedded as `String`; machine strings are UTF-8 text in
both systems. The external collaborators (YAML front-matter splitting,
Markdown rendering) are passed in as function parameters, exactly as the
specification treats them: the pipeline is a pure function of the file
bytes and path once those collaborators are fixed. The f64 payload of a
YAML float is embedded as a rational number; the Rust cast `f as i64`
truncates toward zero, embedded as `Int.tdiv` on numerator and denominator
(saturation at the i64 bounds is never reached by the inputs considered
here).
-/

/-- Embeds Rust `str::starts_with`: the second string is a prefix of the
first, compared on the character sequence. -/
def starts_with (s p : String) : Bool :=
  p.data.isPrefixOf s.data

/-- Splits a character list at every path separator, keeping empty
components, so that the last component is the file name. Structural
helper for the embedding of `Path::file_stem`. -/
def split_slash : List Char → List (List Char)
  | [] => [[]]
  | c :: rest =>
    match split_slash rest with
    | [] => [[]]
    | g :: gs => if c = '/' then [] :: g :: gs else (c :: g) :: gs

/-- Drops the extension (everything from the last dot on) from the tail of
a file name. -/
def drop_ext (l : List Char) : List Char :=
  (l.reverse.drop (l.reverse.findIdx (· == '.') + 1)).reverse

/-- Embeds `self.path.file_stem().and_then(to_str).unwrap_or("index")`:
the final slash-separated component of the path without its extension; a
leading dot alone does not start an extension; "index" when the path has
no final component. -/
def stem_of (p : String) : String :=
  match (split_slash p.data).getLastD [] with
  | [] => "index"
  | c :: rest => if rest.contains '.' then ⟨c :: drop_ext rest⟩ else ⟨c :: rest⟩

/-- Embeds the language-related settings of `SiteConfig` (src/config.rs).
Only these two fields enter the claims under verification; the remaining
configuration fields do not flow into path classification or URL
computation. -/
structure SiteConfig where
  languages : Option (List String)
  default_lang : Option String

/-- Embeds `SiteConfig::get_languages`: the configured list, defaulting to
the singleton English list. -/
def SiteConfig.get_languages (c : SiteConfig) : List String :=
  c.languages.getD ["en"]

/-- Embeds `SiteConfig::get_default_lang`: the configured default,
defaulting to "en". -/
def SiteConfig.get_default_lang (c : SiteConfig) : String :=
  c.default_lang.getD "en"

/-- Embeds `ContentFile::extract_collection_and_language`: a first-match
prefix cascade over the relative path string. -/
def extract_collection_and_language (path : String) : Option String × String :=
  if starts_with path "_lessons_pt" then (some "lessons", "pt")
  else if starts_with path "_lessons_es" then (some "lessons", "es")
  else if starts_with path "_lessons" then (some "lessons", "en")
  else if starts_with path "pt/" then (none, "pt")
  else if starts_with path "es/" then (none, "es")
  else (none, "en")

/-- Embeds the body of `ContentFile::get_output_path`, parameterized by the
collection, language and stem values the method reads from `self`. -/
def output_path_of (collection : Option String) (language stem : String) : String :=
  match collection with
  | some c =>
    if language = "pt" then "/pt/" ++ c ++ "/" ++ stem ++ "/"
    else if language = "es" then "/es/" ++ c ++ "/" ++ stem ++ "/"
    else "/" ++ c ++ "/" ++ stem ++ "/"
  | none =>
    if language = "pt" then "/pt/" ++ stem ++ "/"
    else if language = "es" then "/es/" ++ stem ++ "/"
    else "/" ++ stem ++ "/"

/-- Embeds the body of `ContentFile::get_file_path`: the sequence of
`PathBuf::push` calls rendered as a slash-joined relative path string. -/
def file_path_of (collection : Option String) (language stem : String) : String :=
  match collection with
  | some c =>
    if language = "pt" then "pt/" ++ c ++ "/" ++ stem ++ "/index.html"
    else if language = "es" then "es/" ++ c ++ "/" ++ stem ++ "/index.html"
    else c ++ "/" ++ stem ++ "/index.html"
  | none =>
    if language = "pt" then "pt/" ++ stem ++ "/index.html"
    else if language = "es" then "es/" ++ stem ++ "/index.html"
    else stem ++ "/index.html"

/-- Follows the wording of the specification for the output path: a
leading slash, then the language segment (empty for English), then the
collection segment when present, then the stem, with a trailing slash.
Used to compare the specified formula with the code. -/
def output_path_spec (collection : Option String) (language stem : String) : String :=
  let lang_pre := if language = "en" then "" else language ++ "/"
  match collection with
  | some c => "/" ++ lang_pre ++ c ++ "/" ++ stem ++ "/"
  | none => "/" ++ lang_pre ++ stem ++ "/"

/-- Embeds `get_lesson_translation_map`: localized lesson slug to the
canonical English slug, in insertion order (the duplicate insert of the
cargo pair collapses as it does in the source hash map). -/
def get_lesson_translation_map : List (String × String) :=
  [("ola-mundo", "hello-world"),
   ("instalacao", "installation"),
   ("variaveis", "variables"),
   ("tipos-de-dados", "data-types"),
   ("cargo", "cargo"),
   ("hola-mundo", "hello-world"),
   ("instalacion", "installation"),
   ("variables", "variables")]

/-- Embeds the canonical-slug step of `get_language_urls`: for a file in a
Portuguese or Spanish collection, look the stem up in the translation map,
falling back to the stem itself; English files keep their stem. -/
def en_stem_of (language stem : String) : String :=
  if language = "pt" ∨ language = "es" then
    match List.lookup stem get_lesson_translation_map with
    | some v => v
    | none => stem
  else stem

/-- Embeds the Portuguese-slug step of `get_language_urls`: hardcoded
well-known slugs first, then a reverse lookup through the translation map,
then the "index" marker that triggers the fallback. -/
def pt_lesson_of (en_stem : String) : String :=
  if en_stem = "hello-world" then "ola-mundo"
  else if en_stem = "installation" then "instalacao"
  else if en_stem = "variables" then "variaveis"
  else if en_stem = "data-types" then "tipos-de-dados"
  else if en_stem = "cargo" then "cargo"
  else
    match get_lesson_translation_map.find? (fun kv => kv.2 == en_stem) with
    | some kv => kv.1
    | none => "index"

/-- Embeds the Spanish-slug step of `get_language_urls` (note: the
hardcoded arms do not include the data-types slug). -/
def es_lesson_of (en_stem : String) : String :=
  if en_stem = "hello-world" then "hola-mundo"
  else if en_stem = "installation" then "instalacion"
  else if en_stem = "variables" then "variables"
  else if en_stem = "cargo" then "cargo"
  else
    match get_lesson_translation_map.find? (fun kv => kv.2 == en_stem) with
    | some kv => kv.1
    | none => "index"

/-- Embeds the body of `ContentFile::get_language_urls`, parameterized by
the collection, language and stem values the method reads from `self`. The
hash map of URLs is embedded as an association list in insertion order. -/
def language_urls_of (collection : Option String) (language stem : String) :
    List (String × String) :=
  match collection with
  | some c =>
    let en_stem := en_stem_of language stem
    let pt_lesson := pt_lesson_of en_stem
    let es_lesson := es_lesson_of en_stem
    [("en", "/" ++ c ++ "/" ++ en_stem ++ "/"),
     ("pt", if pt_lesson ≠ "index" then "/pt/" ++ c ++ "/" ++ pt_lesson ++ "/" else "/pt/"),
     ("es", if es_lesson ≠ "index" then "/es/" ++ c ++ "/" ++ es_lesson ++ "/" else "/es/")]
  | none =>
    if stem = "index" then
      [("en", "/"), ("pt", "/pt/"), ("es", "/es/")]
    else
      [("en", "/" ++ stem ++ "/"),
       ("pt", "/pt/" ++ stem ++ "/"),
       ("es", "/es/" ++ stem ++ "/")]

/-- Embeds `gray_matter::Pod`. The f64 payload of a float is embedded as a
rational number. Hash maps are embedded as association lists with distinct
keys (YAML mappings have unique keys after parsing). -/
inductive Pod where
  | string (s : String)
  | integer (n : Int)
  | float (q : ℚ)
  | boolean (b : Bool)
  | array (xs : List Pod)
  | hash (m : List (String × Pod))
  | null

/-- Embeds `serde_yaml::Number`, which stores either an integer or a
float. -/
inductive YamlNumber where
  | int (n : Int)
  | float (q : ℚ)

/-- Embeds `serde_yaml::Value`. -/
inductive YamlValue where
  | string (s : String)
  | number (n : YamlNumber)
  | bool (b : Bool)
  | sequence (xs : List YamlValue)
  | mapping (m : List (YamlValue × YamlValue))
  | null

/-- Embeds the Rust cast `f as i64` on a rational payload: truncation
toward zero. -/
def ratTrunc (q : ℚ) : Int :=
  q.num.tdiv q.den

mutual

/-- Embeds `pod_to_yaml_value` (src/content.rs): the float branch applies
the approximate conversion `f as i64`. -/
def pod_to_yaml_value : Pod → YamlValue
  | .string s => .string s
  | .integer n => .number (.int n)
  | .float q => .number (.int (ratTrunc q))
  | .boolean b => .bool b
  | .array xs => .sequence (pods_to_yaml xs)
  | .hash m => .mapping (pod_map_to_yaml m)
  | .null => .null

/-- Elementwise conversion of an array of pods (the map in the array
branch of `pod_to_yaml_value`). -/
def pods_to_yaml : List Pod → List YamlValue
  | [] => []
  | x :: xs => pod_to_yaml_value x :: pods_to_yaml xs

/-- Pairwise conversion of a hash of pods (the loop in the hash branch of
`pod_to_yaml_value`); keys become YAML string values. -/
def pod_map_to_yaml : List (String × Pod) → List (YamlValue × YamlValue)
  | [] => []
  | (k, v) :: rest => (.string k, pod_to_yaml_value v) :: pod_map_to_yaml rest

end

mutual

/-- Follows the wording of the specification for front-matter values
passing through unchanged: the same conversion as `pod_to_yaml_value`
except that a float stays the same number. Used to compare the specified
pass-through with the code. -/
def pod_to_yaml_value_spec : Pod → YamlValue
  | .string s => .string s
  | .integer n => .number (.int n)
  | .float q => .number (.float q)
  | .boolean b => .bool b
  | .array xs => .sequence (pods_to_yaml_spec xs)
  | .hash m => .mapping (pod_map_to_yaml_spec m)
  | .null => .null

/-- Elementwise specified conversion of an array of pods. -/
def pods_to_yaml_spec : List Pod → List YamlValue
  | [] => []
  | x :: xs => pod_to_yaml_value_spec x :: pods_to_yaml_spec xs

/-- Pairwise specified conversion of a hash of pods. -/
def pod_map_to_yaml_spec : List (String × Pod) → List (YamlValue × YamlValue)
  | [] => []
  | (k, v) :: rest => (.string k, pod_to_yaml_value_spec v) :: pod_map_to_yaml_spec rest

end

mutual

/-- Holds when a pod value contains no float anywhere. -/
def float_free : Pod → Bool
  | .string _ => true
  | .integer _ => true
  | .float _ => false
  | .boolean _ => true
  | .array xs => floats_free xs
  | .hash m => float_free_map m
  | .null => true

/-- Holds when a list of pods contains no float anywhere. -/
def floats_free : List Pod → Bool
  | [] => true
  | x :: xs => float_free x && floats_free xs

/-- Holds when a hash of pods contains no float anywhere. -/
def float_free_map : List (String × Pod) → Bool
  | [] => true
  | (_, v) :: rest => float_free v && float_free_map rest

end

/-- Embeds the `FrontMatter` struct: the nine recognized fields plus the
overflow mapping of unrecognized keys, embedded as an association list. -/
structure FrontMatter where
  title : Option String
  difficulty : Option String
  version : Option String
  prev_lesson : Option String
  prev_lesson_title : Option String
  next_lesson : Option String
  next_lesson_title : Option String
  layout : Option String
  lang : Option String
  extra : List (String × YamlValue)

/-- Embeds the all-None `FrontMatter` initializer the source writes out in
each branch of `from_path`. -/
def default_front_matter : FrontMatter :=
  ⟨none, none, none, none, none, none, none, none, none, []⟩

/-- The keys the front-matter loop recognizes as named fields; every other
key goes to the overflow mapping. -/
def recognized_keys : List String :=
  ["title", "difficulty", "version", "prev_lesson", "prev_lesson_title",
   "next_lesson", "next_lesson_title", "layout", "lang"]

/-- Embeds `HashMap::insert` on the overflow mapping: replaces the binding
of the key when present, appends it otherwise. -/
def hm_insert (m : List (String × YamlValue)) (k : String) (v : YamlValue) :
    List (String × YamlValue) :=
  match m with
  | [] => [(k, v)]
  | (k₁, v₁) :: rest => if k₁ = k then (k, v) :: rest else (k₁, v₁) :: hm_insert rest k v

/-- Embeds one iteration of the front-matter key loop in
`ContentFile::from_path`: a recognized key with a string value sets its
field (a recognized key with any other value shape is dropped), and every
other key is converted and inserted into the overflow mapping. -/
def apply_field (fm : FrontMatter) (key : String) (value : Pod) : FrontMatter :=
  if key = "title" then
    match value with | .string s => { fm with title := some s } | _ => fm
  else if key = "difficulty" then
    match value with | .string s => { fm with difficulty := some s } | _ => fm
  else if key = "version" then
    match value with | .string s => { fm with version := some s } | _ => fm
  else if key = "prev_lesson" then
    match value with | .string s => { fm with prev_lesson := some s } | _ => fm
  else if key = "prev_lesson_title" then
    match value with | .string s => { fm with prev_lesson_title := some s } | _ => fm
  else if key = "next_lesson" then
    match value with | .string s => { fm with next_lesson := some s } | _ => fm
  else if key = "next_lesson_title" then
    match value with | .string s => { fm with next_lesson_title := some s } | _ => fm
  else if key = "layout" then
    match value with | .string s => { fm with layout := some s } | _ => fm
  else if key = "lang" then
    match value with | .string s => { fm with lang := some s } | _ => fm
  else
    { fm with extra := hm_insert fm.extra key (pod_to_yaml_value value) }

/-- Embeds the front-matter key loop: folds `apply_field` over the parsed
hash entries. -/
def fm_fold : FrontMatter → List (String × Pod) → FrontMatter
  | fm, [] => fm
  | fm, (k, v) :: rest => fm_fold (apply_field fm k v) rest

/-- Embeds the front-matter construction in `ContentFile::from_path`: the
loop over a parsed hash, and the all-None value for a non-hash or absent
front-matter block. -/
def build_front_matter : Option Pod → FrontMatter
  | some (.hash m) => fm_fold default_front_matter m
  | some _ => default_front_matter
  | none => default_front_matter

/-- Embeds the result of `Matter::parse`: the optional front-matter data
block and the remaining body text. -/
structure ParseResult where
  data : Option Pod
  content : String

/-- Embeds the `ContentFile` struct. -/
structure ContentFile where
  path : String
  relative_path : String
  front_matter : FrontMatter
  content : String
  html_content : String
  collection : Option String
  language : String

/-- Embeds the pure tail of `ContentFile::from_path` once the file bytes
have been read and parsed: build the front matter, render the body through
the Markdown collaborator, classify collection and language from the
relative path, and assemble the record. -/
def from_parse_result (render : String → String) (path relative_path : String)
    (result : ParseResult) : ContentFile :=
  { path := path
    relative_path := relative_path
    front_matter := build_front_matter result.data
    content := result.content
    html_content := render result.content
    collection := (extract_collection_and_language relative_path).1
    language := (extract_collection_and_language relative_path).2 }

/-- Embeds `path.strip_prefix(source_root)` for slash-separated string
paths: removes the leading root directory together with its separator, and
fails when the path is not under the root; the empty root strips
nothing. -/
def strip_root (source_root path : String) : Option String :=
  if source_root = "" then some path
  else if (source_root ++ "/").data.isPrefixOf path.data then
    some ⟨path.data.drop (source_root ++ "/").data.length⟩
  else none

/-- Embeds `ContentFile::from_path` with the external collaborators fixed
as parameters: `matter` stands for the front-matter splitter and `render`
for the Markdown renderer; `contents` is the text read from the file. The
only failure modeled is a path outside the source root. -/
def from_path (matter : String → ParseResult) (render : String → String)
    (source_root path contents : String) : Option ContentFile :=
  (strip_root source_root path).map
    (fun rel => from_parse_result render path rel (matter contents))

/-- Embeds the method `ContentFile::get_output_path` (the base-url
parameter is unused in the source as well). -/
def ContentFile.get_output_path (cf : ContentFile) (base_url : String) : String :=
  output_path_of cf.collection cf.language (stem_of cf.path)

/-- Embeds the method `ContentFile::get_file_path`. -/
def ContentFile.get_file_path (cf : ContentFile) : String :=
  file_path_of cf.collection cf.language (stem_of cf.path)

/-- Embeds the method `ContentFile::get_language_urls`. -/
def ContentFile.get_language_urls (cf : ContentFile) : List (String × String) :=
  language_urls_of cf.collection cf.language (stem_of cf.path)

/-- A string with nonempty character data is not the empty string. -/
theorem string_ne_empty_of_data (s : String) (h : s.data ≠ []) : s ≠ "" := by
  intro e
  rw [e] at h
  exact h rfl

/-- A string starts with any string it extends on the right. -/
theorem starts_with_append (p r : String) : starts_with (p ++ r) p = true := by
  unfold starts_with
  rw [String.data_append]
  exact List.isPrefixOf_iff_prefix.mpr (List.prefix_append _ _)

/-- A stem followed by a slash can only continue the prefix "pt/" when the
stem is "pt" itself or contains a slash. -/
theorem not_pt_prefix_tail (l : List Char) (h1 : l ≠ ['p', 't']) (h2 : '/' ∉ l) :
    List.isPrefixOf ['p', 't', '/'] (l ++ ['/']) = false := by
  match l with
  | [] => decide
  | [a] => simp [List.isPrefixOf]
  | [a, b] =>
      simp only [List.cons_append, List.nil_append, List.isPrefixOf,
        Bool.and_eq_false_iff, beq_eq_false_iff_ne, ne_eq]
      by_cases ha : 'p' = a
      · by_cases hb : 't' = b
        · exact absurd (by rw [← ha, ← hb]) h1
        · right; left; exact hb
      · left; exact ha
  | a :: b :: c :: t =>
      simp only [List.cons_append, List.isPrefixOf, Bool.and_eq_false_iff,
        beq_eq_false_iff_ne, ne_eq]
      by_cases hc : '/' = c
      · exact absurd (by rw [hc]; simp : '/' ∈ a :: b :: c :: t) h2
      · right; right; left; exact hc

/-- A stem followed by a slash can only continue the prefix "es/" when the
stem is "es" itself or contains a slash. -/
theorem not_es_prefix_tail (l : List Char) (h1 : l ≠ ['e', 's']) (h2 : '/' ∉ l) :
    List.isPrefixOf ['e', 's', '/'] (l ++ ['/']) = false := by
  match l with
  | [] => decide
  | [a] => simp [List.isPrefixOf]
  | [a, b] =>
      simp only [List.cons_append, List.nil_append, List.isPrefixOf,
        Bool.and_eq_false_iff, beq_eq_false_iff_ne, ne_eq]
      by_cases ha : 'e' = a
      · by_cases hb : 's' = b
        · exact absurd (by rw [← ha, ← hb]) h1
        · right; left; exact hb
      · left; exact ha
  | a :: b :: c :: t =>
      simp only [List.cons_append, List.isPrefixOf, Bool.and_eq_false_iff,
        beq_eq_false_iff_ne, ne_eq]
      by_cases hc : '/' = c
      · exact absurd (by rw [hc]; simp : '/' ∈ a :: b :: c :: t) h2
      · right; right; left; exact hc

/-- Character data of the slash literal. -/
theorem sdata_slash : ("/" : String).data = ['/'] := rfl

/-- Character data of the empty literal. -/
theorem sdata_empty : ("" : String).data = [] := rfl

/-- Character data of the Portuguese URL segment literal. -/
theorem sdata_pt_url : ("/pt/" : String).data = ['/', 'p', 't', '/'] := rfl

/-- Character data of the Spanish URL segment literal. -/
theorem sdata_es_url : ("/es/" : String).data = ['/', 'e', 's', '/'] := rfl

/-- Character data of the Portuguese directory segment literal. -/
theorem sdata_pt_dir : ("pt/" : String).data = ['p', 't', '/'] := rfl

/-- Character data of the Spanish directory segment literal. -/
theorem sdata_es_dir : ("es/" : String).data = ['e', 's', '/'] := rfl

/-- Character data of the bare Portuguese code literal. -/
theorem sdata_pt_bare : ("pt" : String).data = ['p', 't'] := rfl

/-- Character data of the bare Spanish code literal. -/
theorem sdata_es_bare : ("es" : String).data = ['e', 's'] := rfl

/-- Character data of the lessons collection literal. -/
theorem sdata_lessons : ("lessons" : String).data
    = ['l', 'e', 's', 's', 'o', 'n', 's'] := rfl

/-- Character data of the index file literal. -/
theorem sdata_index_html : ("index.html" : String).data
    = ['i', 'n', 'd', 'e', 'x', '.', 'h', 't', 'm', 'l'] := rfl

/-- C1: every relative path beginning with the Portuguese collection
marker classifies as the lessons collection in Portuguese; the first
branch of the prefix cascade wins, so neither the English collection
branch nor the generic Portuguese branch can fire. -/
theorem lessons_pt_prefix_classifies_pt (p : String)
    (h : starts_with p "_lessons_pt" = true) :
    extract_collection_and_language p = (some "lessons", "pt") := by
  unfold extract_collection_and_language
  rw [if_pos h]

/-- C1 witness: a concrete lesson file under the Portuguese collection
directory. -/
theorem lessons_pt_prefix_classifies_pt_witness :
    starts_with "_lessons_pt/variaveis.md" "_lessons_pt" = true ∧
    extract_collection_and_language "_lessons_pt/variaveis.md" = (some "lessons", "pt") :=
  ⟨by decide, lessons_pt_prefix_classifies_pt _ (by decide)⟩

/-- C7 counterexample: with the default configuration the language list is
the singleton English list, yet a file under the top-level pt directory
resolves to "pt", outside the configured codes; and the fallback language
is the hard-coded "en", not the configured default language. -/
theorem configured_languages_ignored :
    (SiteConfig.mk none none).get_languages = ["en"] ∧
    (extract_collection_and_language "pt/about.md").2 = "pt" ∧
    "pt" ∉ (SiteConfig.mk none none).get_languages ∧
    (extract_collection_and_language "about.md").2 = "en" ∧
    (SiteConfig.mk none (some "pt")).get_default_lang = "pt" ∧
    (extract_collection_and_language "about.md").2 ≠
      (SiteConfig.mk none (some "pt")).get_default_lang :=
  ⟨rfl, by decide, by decide, by decide, rfl, by decide⟩

/-- C7 (amended): the resolved language is always one of the three
hard-coded codes en, pt, es, with "en" as the fallback, independent of the
configured language list and default language. -/
theorem resolved_language_hardcoded (p : String) :
    (extract_collection_and_language p).2 = "en" ∨
    (extract_collection_and_language p).2 = "pt" ∨
    (extract_collection_and_language p).2 = "es" := by
  unfold extract_collection_and_language
  split_ifs <;> simp

/-- C6 counterexample: resolving index.md at the content root yields the
output path "/index/", not "/" as claimed. -/
theorem root_index_output_path_counterexample :
    (from_parse_result (fun s => s) "index.md" "index.md" ⟨none, ""⟩).get_output_path ""
      = "/index/" ∧
    ("/index/" : String) ≠ "/" :=
  ⟨rfl, by decide⟩

/-- C6 (amended): index.md at the content root classifies as a standalone
English page, its computed output path is "/index/" (the site root page at
"/" is written by a separate generator step, not by this function), and
its language equivalents are each language bare root. -/
theorem root_index_resolution :
    (from_parse_result (fun s => s) "index.md" "index.md" ⟨none, ""⟩).collection = none ∧
    (from_parse_result (fun s => s) "index.md" "index.md" ⟨none, ""⟩).language = "en" ∧
    (from_parse_result (fun s => s) "index.md" "index.md" ⟨none, ""⟩).get_output_path ""
      = "/index/" ∧
    (from_parse_result (fun s => s) "index.md" "index.md" ⟨none, ""⟩).get_language_urls
      = [("en", "/"), ("pt", "/pt/"), ("es", "/es/")] :=
  ⟨rfl, rfl, rfl, rfl⟩

/-- C8: resolution is deterministic and pure: with the front-matter and
Markdown collaborators fixed, equal file contents at an equal path resolve
to identical ContentFile data. -/
theorem from_path_deterministic (matter : String → ParseResult)
    (render : String → String) (source_root p₁ p₂ c₁ c₂ : String)
    (hp : p₁ = p₂) (hc : c₁ = c₂) :
    from_path matter render source_root p₁ c₁ =
      from_path matter render source_root p₂ c₂ := by
  subst hp
  subst hc
  rfl

/-- C8 witness: a concrete double resolution of the same contents at the
same path. -/
theorem from_path_deterministic_witness :
    ("index.md" : String) = "index.md" ∧
    from_path (fun s => ⟨none, s⟩) (fun s => s) "" "index.md" "hello" =
      from_path (fun s => ⟨none, s⟩) (fun s => s) "" "index.md" "hello" :=
  ⟨rfl, from_path_deterministic (fun s => ⟨none, s⟩) (fun s => s) ""
    "index.md" "index.md" "hello" "hello" rfl rfl⟩

/-- C10: the resolved language, collection, output path and cross-language
URL mapping depend only on the path: two parse results at the same path
(in particular two differing only in the front-matter lang field) resolve
identically in all four respects. -/
theorem front_matter_lang_no_influence (render : String → String)
    (path rel : String) (r₁ r₂ : ParseResult) :
    (from_parse_result render path rel r₁).language =
      (from_parse_result render path rel r₂).language ∧
    (from_parse_result render path rel r₁).collection =
      (from_parse_result render path rel r₂).collection ∧
    (from_parse_result render path rel r₁).get_output_path "" =
      (from_parse_result render path rel r₂).get_output_path "" ∧
    (from_parse_result render path rel r₁).get_language_urls =
      (from_parse_result render path rel r₂).get_language_urls :=
  ⟨rfl, rfl, rfl, rfl⟩

/-- C3: for a ContentFile whose language is one of the resolvable codes,
the output path follows the specified formula: leading slash, language
prefix (empty for English), collection segment when present, stem,
trailing slash. -/
theorem output_path_matches_spec_formula (cf : ContentFile) (base_url : String)
    (h : cf.language = "en" ∨ cf.language = "pt" ∨ cf.language = "es") :
    cf.get_output_path base_url
      = output_path_spec cf.collection cf.language (stem_of cf.path) := by
  unfold ContentFile.get_output_path output_path_of output_path_spec
  rcases h with h | h | h <;> rw [h] <;> rcases cf.collection with _ | c <;>
    apply String.ext <;> simp [String.data_append]

/-- C3 witness: a Portuguese lesson file. -/
theorem output_path_matches_spec_formula_witness :
    ((⟨"_lessons_pt/variaveis.md", "_lessons_pt/variaveis.md", default_front_matter,
        "", "", some "lessons", "pt"⟩ : ContentFile).language = "en" ∨
     (⟨"_lessons_pt/variaveis.md", "_lessons_pt/variaveis.md", default_front_matter,
        "", "", some "lessons", "pt"⟩ : ContentFile).language = "pt" ∨
     (⟨"_lessons_pt/variaveis.md", "_lessons_pt/variaveis.md", default_front_matter,
        "", "", some "lessons", "pt"⟩ : ContentFile).language = "es") ∧
    (⟨"_lessons_pt/variaveis.md", "_lessons_pt/variaveis.md", default_front_matter,
        "", "", some "lessons", "pt"⟩ : ContentFile).get_output_path ""
      = output_path_spec (some "lessons") "pt" (stem_of "_lessons_pt/variaveis.md") :=
  ⟨Or.inr (Or.inl rfl),
   output_path_matches_spec_formula
     ⟨"_lessons_pt/variaveis.md", "_lessons_pt/variaveis.md", default_front_matter,
       "", "", some "lessons", "pt"⟩ "" (Or.inr (Or.inl rfl))⟩

/-- C4: for every ContentFile the output URL and the on-disk file path
describe the same location: appending index.html to the output path gives
exactly the root slash plus the file path, whatever the language and
collection fields hold. -/
theorem output_path_file_path_agree (cf : ContentFile) (base_url : String) :
    cf.get_output_path base_url ++ "index.html" = "/" ++ cf.get_file_path := by
  unfold ContentFile.get_output_path ContentFile.get_file_path output_path_of file_path_of
  rcases cf.collection with _ | c <;>
    by_cases hpt : cf.language = "pt" <;> by_cases hes : cf.language = "es" <;>
    simp [hpt, hes] <;> apply String.ext <;> simp [String.data_append]

/-- C2 counterexample: a lesson slug with no localized equivalent maps
Portuguese to the site language root "/pt/", not to the Portuguese
collection index page "/pt/lessons/". -/
theorem unknown_slug_fallback_counterexample :
    List.lookup "pt" (language_urls_of (some "lessons") "en" "ownership") = some "/pt/" ∧
    ("/pt/" : String) ≠ "/pt/lessons/" :=
  ⟨rfl, by decide⟩

/-- C2 (amended): for a collection file in any language whose canonical
slug — the stem reverse-resolved through the translation map exactly as
the code computes it — is neither a hardcoded well-known slug nor a value
of the translation map, the Portuguese and Spanish entries fall back to
that language site root ("/pt/", "/es/") — an index page for the language,
though not the collection index page — never to a broken formatted URL. -/
theorem unknown_slug_falls_back_to_language_root (c l s : String)
    (h1 : en_stem_of l s ≠ "hello-world") (h2 : en_stem_of l s ≠ "installation")
    (h3 : en_stem_of l s ≠ "variables") (h4 : en_stem_of l s ≠ "data-types")
    (h5 : en_stem_of l s ≠ "cargo")
    (hrev : get_lesson_translation_map.find? (fun kv => kv.2 == en_stem_of l s) = none) :
    List.lookup "pt" (language_urls_of (some c) l s) = some "/pt/" ∧
    List.lookup "es" (language_urls_of (some c) l s) = some "/es/" := by
  have hpt : pt_lesson_of (en_stem_of l s) = "index" := by
    unfold pt_lesson_of
    rw [if_neg h1, if_neg h2, if_neg h3, if_neg h4, if_neg h5, hrev]
  have hes : es_lesson_of (en_stem_of l s) = "index" := by
    unfold es_lesson_of
    rw [if_neg h1, if_neg h2, if_neg h3, if_neg h5, hrev]
  unfold language_urls_of
  simp [hpt, hes, List.lookup]

/-- C2 witness: the Portuguese lesson slug "posse" has no entry in the
translation map, so its canonical slug stays "posse" and both target
languages fall back. -/
theorem unknown_slug_falls_back_to_language_root_witness :
    (en_stem_of "pt" "posse" ≠ "hello-world" ∧
     en_stem_of "pt" "posse" ≠ "installation" ∧
     en_stem_of "pt" "posse" ≠ "variables" ∧
     en_stem_of "pt" "posse" ≠ "data-types" ∧
     en_stem_of "pt" "posse" ≠ "cargo" ∧
     get_lesson_translation_map.find? (fun kv => kv.2 == en_stem_of "pt" "posse") = none) ∧
    List.lookup "pt" (language_urls_of (some "lessons") "pt" "posse") = some "/pt/" ∧
    List.lookup "es" (language_urls_of (some "lessons") "pt" "posse") = some "/es/" :=
  ⟨⟨by decide, by decide, by decide, by decide, by decide, by decide⟩,
   unknown_slug_falls_back_to_language_root "lessons" "pt" "posse"
     (by decide) (by decide) (by decide) (by decide) (by decide) (by decide)⟩

/-- C5 counterexample: a standalone file named pt.md at the content root
resolves as an English page, yet its English entry in the language URL map
is "/pt/", inside the Portuguese subtree. -/
theorem english_entry_subtree_counterexample :
    (from_parse_result (fun s => s) "pt.md" "pt.md" ⟨none, ""⟩).collection = none ∧
    (from_parse_result (fun s => s) "pt.md" "pt.md" ⟨none, ""⟩).language = "en" ∧
    List.lookup "en"
        (from_parse_result (fun s => s) "pt.md" "pt.md" ⟨none, ""⟩).get_language_urls
      = some "/pt/" ∧
    starts_with "/pt/" "/pt/" = true :=
  ⟨rfl, rfl, rfl, rfl⟩

/-- C5 (amended): for the three languages the URL map serves, every entry
is present and nonempty; the Portuguese entry always lies under "/pt/" and
the Spanish entry under "/es/"; the English entry lies outside both
subtrees provided the file stem is a single path component other than the
bare language codes "pt" and "es" (a standalone page whose stem is a bare
code yields an English entry inside that language subtree). -/
theorem language_urls_entries_subtrees (c : Option String) (l s : String)
    (hc : c = none ∨ c = some "lessons") :
    (∃ u, List.lookup "en" (language_urls_of c l s) = some u ∧ u ≠ "" ∧
        (s ≠ "pt" → s ≠ "es" → '/' ∉ s.data →
          starts_with u "/pt/" = false ∧ starts_with u "/es/" = false)) ∧
    (∃ u, List.lookup "pt" (language_urls_of c l s) = some u ∧ u ≠ "" ∧
        starts_with u "/pt/" = true) ∧
    (∃ u, List.lookup "es" (language_urls_of c l s) = some u ∧ u ≠ "" ∧
        starts_with u "/es/" = true) := by
  rcases hc with hc | hc <;> subst hc
  · unfold language_urls_of
    by_cases hi : s = "index"
    · rw [if_pos hi]
      exact ⟨⟨"/", rfl, by decide, fun _ _ _ => ⟨by decide, by decide⟩⟩,
             ⟨"/pt/", rfl, by decide, by decide⟩,
             ⟨"/es/", rfl, by decide, by decide⟩⟩
    · rw [if_neg hi]
      refine ⟨⟨"/" ++ s ++ "/", rfl, ?_, ?_⟩,
              ⟨"/pt/" ++ s ++ "/", rfl, ?_, ?_⟩,
              ⟨"/es/" ++ s ++ "/", rfl, ?_, ?_⟩⟩
      · exact string_ne_empty_of_data _ (by simp [String.data_append])
      · intro hpt hes hsl
        have hdpt : s.data ≠ ['p', 't'] :=
          fun h => hpt (String.ext (h.trans sdata_pt_bare.symm))
        have hdes : s.data ≠ ['e', 's'] :=
          fun h => hes (String.ext (h.trans sdata_es_bare.symm))
        constructor
        · simp only [starts_with, String.data_append]
          simp only [List.isPrefixOf, List.cons_append, List.nil_append]
          simp [not_pt_prefix_tail s.data hdpt hsl]
        · simp only [starts_with, String.data_append]
          simp only [List.isPrefixOf, List.cons_append, List.nil_append]
          simp [not_es_prefix_tail s.data hdes hsl]
      · exact string_ne_empty_of_data _ (by simp [String.data_append])
      · rw [String.append_assoc]; exact starts_with_append _ _
      · exact string_ne_empty_of_data _ (by simp [String.data_append])
      · rw [String.append_assoc]; exact starts_with_append _ _
  · unfold language_urls_of
    simp only []
    generalize en_stem_of l s = e
    generalize pt_lesson_of e = p
    generalize es_lesson_of e = q
    refine ⟨⟨"/" ++ "lessons" ++ "/" ++ e ++ "/", rfl, ?_, ?_⟩, ?_, ?_⟩
    · exact string_ne_empty_of_data _ (by simp [String.data_append])
    · intro _ _ _
      constructor
      · simp [starts_with, String.data_append, List.isPrefixOf]
      · simp [starts_with, String.data_append, List.isPrefixOf]
    · by_cases hp : p = "index"
      · rw [if_neg (not_not_intro hp)]
        exact ⟨"/pt/", rfl, by decide, by decide⟩
      · rw [if_pos hp]
        refine ⟨"/pt/" ++ "lessons" ++ "/" ++ p ++ "/", rfl, ?_, ?_⟩
        · exact string_ne_empty_of_data _ (by simp [String.data_append])
        · rw [String.append_assoc, String.append_assoc, String.append_assoc]
          exact starts_with_append _ _
    · by_cases hq : q = "index"
      · rw [if_neg (not_not_intro hq)]
        exact ⟨"/es/", rfl, by decide, by decide⟩
      · rw [if_pos hq]
        refine ⟨"/es/" ++ "lessons" ++ "/" ++ q ++ "/", rfl, ?_, ?_⟩
        · exact string_ne_empty_of_data _ (by simp [String.data_append])
        · rw [String.append_assoc, String.append_assoc, String.append_assoc]
          exact starts_with_append _ _

/-- C5 witness: the standalone page about.md. -/
theorem language_urls_entries_subtrees_witness :
    ((none : Option String) = none ∨ (none : Option String) = some "lessons") ∧
    ((∃ u, List.lookup "en" (language_urls_of none "en" "about") = some u ∧ u ≠ "" ∧
        (("about" : String) ≠ "pt" → ("about" : String) ≠ "es" →
          '/' ∉ ("about" : String).data →
          starts_with u "/pt/" = false ∧ starts_with u "/es/" = false)) ∧
     (∃ u, List.lookup "pt" (language_urls_of none "en" "about") = some u ∧ u ≠ "" ∧
        starts_with u "/pt/" = true) ∧
     (∃ u, List.lookup "es" (language_urls_of none "en" "about") = some u ∧ u ≠ "" ∧
        starts_with u "/es/" = true)) :=
  ⟨Or.inl rfl, language_urls_entries_subtrees none "en" "about" (Or.inl rfl)⟩

mutual

/-- On float-free values the code conversion agrees with the specified
pass-through conversion. -/
theorem pod_conv_eq_of_float_free (p : Pod) (h : float_free p = true) :
    pod_to_yaml_value p = pod_to_yaml_value_spec p :=
  match p, h with
  | .string _, _ => rfl
  | .integer _, _ => rfl
  | .float _, h => absurd h (by simp [float_free])
  | .boolean _, _ => rfl
  | .array xs, h =>
      congrArg YamlValue.sequence
        (pods_conv_eq_of_floats_free xs (by simpa [float_free] using h))
  | .hash m, h =>
      congrArg YamlValue.mapping
        (pod_map_conv_eq_of_float_free m (by simpa [float_free] using h))
  | .null, _ => rfl

/-- On float-free lists the code conversion agrees with the specified
conversion. -/
theorem pods_conv_eq_of_floats_free (xs : List Pod) (h : floats_free xs = true) :
    pods_to_yaml xs = pods_to_yaml_spec xs :=
  match xs, h with
  | [], _ => rfl
  | x :: rest, h => by
      rw [pods_to_yaml, pods_to_yaml_spec]
      have hx : float_free x = true := by
        have hh := h; rw [floats_free] at hh; exact (Bool.and_eq_true_iff.mp hh).1
      have hr : floats_free rest = true := by
        have hh := h; rw [floats_free] at hh; exact (Bool.and_eq_true_iff.mp hh).2
      rw [pod_conv_eq_of_float_free x hx, pods_conv_eq_of_floats_free rest hr]

/-- On float-free hashes the code conversion agrees with the specified
conversion. -/
theorem pod_map_conv_eq_of_float_free (m : List (String × Pod))
    (h : float_free_map m = true) :
    pod_map_to_yaml m = pod_map_to_yaml_spec m :=
  match m, h with
  | [], _ => rfl
  | (k, v) :: rest, h => by
      rw [pod_map_to_yaml, pod_map_to_yaml_spec]
      have hv : float_free v = true := by
        have hh := h; rw [float_free_map] at hh; exact (Bool.and_eq_true_iff.mp hh).1
      have hr : float_free_map rest = true := by
        have hh := h; rw [float_free_map] at hh; exact (Bool.and_eq_true_iff.mp hh).2
      rw [pod_conv_eq_of_float_free v hv, pod_map_conv_eq_of_float_free rest hr]

end

/-- Looking up the inserted key finds the inserted value. -/
theorem hm_insert_lookup_self (m : List (String × YamlValue)) (k : String) (v : YamlValue) :
    List.lookup k (hm_insert m k v) = some v := by
  induction m with
  | nil => simp [hm_insert, List.lookup]
  | cons kv rest ih =>
      obtain ⟨k₁, v₁⟩ := kv
      unfold hm_insert
      by_cases h : k₁ = k
      · rw [if_pos h]; simp [List.lookup]
      · rw [if_neg h]
        have hbeq : (k == k₁) = false := beq_eq_false_iff_ne.mpr (fun hh => h hh.symm)
        simp [List.lookup, hbeq, ih]

/-- Inserting a different key leaves a lookup unchanged. -/
theorem hm_insert_lookup_ne (m : List (String × YamlValue)) (k k' : String)
    (v : YamlValue) (h : k' ≠ k) :
    List.lookup k (hm_insert m k' v) = List.lookup k m := by
  have hbeq : (k == k') = false := beq_eq_false_iff_ne.mpr (fun hh => h hh.symm)
  induction m with
  | nil => simp [hm_insert, List.lookup, hbeq]
  | cons kv rest ih =>
      obtain ⟨k₁, v₁⟩ := kv
      unfold hm_insert
      by_cases h₁ : k₁ = k'
      · rw [if_pos h₁]
        subst h₁
        simp [List.lookup, hbeq]
      · rw [if_neg h₁]
        by_cases h₂ : k = k₁
        · simp [List.lookup, h₂]
        · have hbeq₂ : (k == k₁) = false := beq_eq_false_iff_ne.mpr h₂
          simp [List.lookup, hbeq₂, ih]

/-- One step of the front-matter loop, seen through a lookup of an
unrecognized key in the overflow mapping: the binding appears when the
step handles that key, and nothing changes otherwise. -/
theorem apply_field_extra_lookup (fm : FrontMatter) (k k' : String) (v' : Pod)
    (hk : k ∉ recognized_keys) :
    List.lookup k (apply_field fm k' v').extra =
      (if k' = k then some (pod_to_yaml_value v') else List.lookup k fm.extra) := by
  by_cases he : k' = k
  · subst he
    rw [if_pos rfl]
    have h1 : k' ≠ "title" := fun h => hk (by rw [h]; decide)
    have h2 : k' ≠ "difficulty" := fun h => hk (by rw [h]; decide)
    have h3 : k' ≠ "version" := fun h => hk (by rw [h]; decide)
    have h4 : k' ≠ "prev_lesson" := fun h => hk (by rw [h]; decide)
    have h5 : k' ≠ "prev_lesson_title" := fun h => hk (by rw [h]; decide)
    have h6 : k' ≠ "next_lesson" := fun h => hk (by rw [h]; decide)
    have h7 : k' ≠ "next_lesson_title" := fun h => hk (by rw [h]; decide)
    have h8 : k' ≠ "layout" := fun h => hk (by rw [h]; decide)
    have h9 : k' ≠ "lang" := fun h => hk (by rw [h]; decide)
    unfold apply_field
    rw [if_neg h1, if_neg h2, if_neg h3, if_neg h4, if_neg h5, if_neg h6,
      if_neg h7, if_neg h8, if_neg h9]
    exact hm_insert_lookup_self fm.extra k' (pod_to_yaml_value v')
  · rw [if_neg he]
    unfold apply_field
    split_ifs <;>
      first
        | (cases v' <;> rfl)
        | exact hm_insert_lookup_ne fm.extra k k' (pod_to_yaml_value v') he

/-- Folding the loop over entries that never carry the key leaves a lookup
of the key in the overflow mapping unchanged. -/
theorem fm_fold_extra_lookup_not_mem :
    ∀ (m : List (String × Pod)) (fm : FrontMatter) (k : String),
      k ∉ recognized_keys → (∀ v, (k, v) ∉ m) →
      List.lookup k (fm_fold fm m).extra = List.lookup k fm.extra := by
  intro m
  induction m with
  | nil => intro fm k _ _; rfl
  | cons kv rest ih =>
      intro fm k hk h
      obtain ⟨k₁, v₁⟩ := kv
      have hne : k₁ ≠ k := by
        intro heq
        exact h v₁ (by rw [heq]; exact List.mem_cons_self _ _)
      unfold fm_fold
      rw [ih _ k hk (fun v hv => h v (List.mem_cons_of_mem _ hv))]
      rw [apply_field_extra_lookup fm k k₁ v₁ hk, if_neg hne]

/-- Folding the loop over a hash with distinct keys makes a lookup of an
unrecognized key in the overflow mapping find the converted value bound to
that key. -/
theorem fm_fold_extra_lookup_mem :
    ∀ (m : List (String × Pod)) (fm : FrontMatter) (k : String) (v : Pod),
      k ∉ recognized_keys → (k, v) ∈ m → (m.map Prod.fst).Nodup →
      List.lookup k (fm_fold fm m).extra = some (pod_to_yaml_value v) := by
  intro m
  induction m with
  | nil => intro fm k v _ hmem _; cases hmem
  | cons kv rest ih =>
      intro fm k v hk hmem hnd
      obtain ⟨k₁, v₁⟩ := kv
      rw [List.map_cons, List.nodup_cons] at hnd
      obtain ⟨hnotin, hnd₂⟩ := hnd
      rcases List.mem_cons.mp hmem with heq | htail
      · injection heq with hkk hvv
        subst hkk
        subst hvv
        unfold fm_fold
        rw [fm_fold_extra_lookup_not_mem rest _ k hk
          (fun w hw => hnotin (List.mem_map.mpr ⟨(k, w), hw, rfl⟩))]
        rw [apply_field_extra_lookup fm k k v hk, if_pos rfl]
      · have hne : k₁ ≠ k := fun heqk =>
          hnotin (heqk ▸ List.mem_map.mpr ⟨(k, v), htail, rfl⟩)
        unfold fm_fold
        exact ih (apply_field fm k₁ v₁) k v hk htail hnd₂

/-- C9 counterexample: the unrecognized key rating with the float value
5/2 reaches the overflow mapping truncated to the integer 2 rather than
passing through unchanged. -/
theorem float_value_truncated_counterexample :
    List.lookup "rating"
        (build_front_matter (some (.hash [("rating", .float (mkRat 5 2))]))).extra
      = some (.number (.int 2)) ∧
    pod_to_yaml_value_spec (.float (mkRat 5 2)) = .number (.float (mkRat 5 2)) ∧
    YamlValue.number (.int 2) ≠ .number (.float (mkRat 5 2)) := by
  refine ⟨rfl, rfl, fun h => ?_⟩
  have h2 := YamlValue.number.inj h
  exact YamlNumber.noConfusion h2

/-- C9 (amended): every unrecognized front-matter key reaches the overflow
mapping with its value converted shape-preservingly — identical to the
specified pass-through for strings, integers, booleans, sequences,
mappings and null — except that float values anywhere inside are truncated
toward zero to integers. -/
theorem unrecognized_key_passthrough (m : List (String × Pod)) (k : String) (v : Pod)
    (hk : k ∉ recognized_keys) (hmem : (k, v) ∈ m) (hnd : (m.map Prod.fst).Nodup)
    (hff : float_free v = true) :
    List.lookup k (build_front_matter (some (.hash m))).extra
      = some (pod_to_yaml_value_spec v) := by
  unfold build_front_matter
  rw [fm_fold_extra_lookup_mem m default_front_matter k v hk hmem hnd]
  rw [pod_conv_eq_of_float_free v hff]

/-- C9 witness: an unrecognized key carrying a float-free sequence value
passes through unchanged. -/
theorem unrecognized_key_passthrough_witness :
    ("tags" : String) ∉ recognized_keys ∧
    ("tags", Pod.array [.string "rust"]) ∈ [("tags", Pod.array [.string "rust"])] ∧
    ([("tags", Pod.array [.string "rust"])].map Prod.fst).Nodup ∧
    float_free (.array [.string "rust"]) = true ∧
    List.lookup "tags"
        (build_front_matter (some (.hash [("tags", .array [.string "rust"])]))).extra
      = some (pod_to_yaml_value_spec (.array [.string "rust"])) :=
  ⟨by decide, List.mem_cons_self _ _, by simp, rfl,
   unrecognized_key_passthrough [("tags", .array [.string "rust"])] "tags"
     (.array [.string "rust"]) (by decide) (List.mem_cons_self _ _) (by simp) rfl⟩
